import Mathlib

/-! Shallow embedding of `convert_to_word.py`, a line-oriented
markdown-to-document converter.  Source lines are modelled as `List Char`;
the output document is a list of emitted blocks.  The helper functions
`pyStrip`, `pyStartsWith`, `containsSub`, `splitFirst`, `splitOnChar`
model Python's `str.strip`, `str.startswith`, the `in` substring test,
`str.split(sep, 1)` and `str.split(sep)` respectively. -/

namespace ConvertToWord

/-- The backtick character (U+0060). -/
def backtick : Char := Char.ofNat 96

/-- Characters removed by Python `str.strip()` (ASCII whitespace). -/
def pySpace (c : Char) : Bool :=
  c == ' ' || c == Char.ofNat 9 || c == Char.ofNat 10 || c == Char.ofNat 13 ||
  c == Char.ofNat 11 || c == Char.ofNat 12

/-- Python `str.strip()`: remove leading and trailing whitespace. -/
def pyStrip (l : List Char) : List Char :=
  ((l.dropWhile pySpace).reverse.dropWhile pySpace).reverse

/-- Python `s.startswith(pat)`: `pyStartsWith pat s`. -/
def pyStartsWith : List Char → List Char → Bool
  | [], _ => true
  | _ :: _, [] => false
  | p :: ps, c :: cs => if p = c then pyStartsWith ps cs else false

/-- Python `sep in s`: `containsSub sep s`. -/
def containsSub (sep : List Char) : List Char → Bool
  | [] => sep.isEmpty
  | c :: rest => pyStartsWith sep (c :: rest) || containsSub sep rest

/-- Split at the first occurrence of `sep`: `some (before, after)`, or
`none` when `sep` does not occur.  Models the search done by Python
`s.split(sep, 1)`. -/
def splitFirst (sep : List Char) : List Char → Option (List Char × List Char)
  | [] => if sep = [] then some ([], []) else none
  | c :: rest =>
    if pyStartsWith sep (c :: rest) then some ([], (c :: rest).drop sep.length)
    else
      match splitFirst sep rest with
      | none => none
      | some p => some (c :: p.1, p.2)

/-- Python `s.split(sep, 1)`: one or two pieces. -/
def pySplit1 (sep l : List Char) : List (List Char) :=
  match splitFirst sep l with
  | none => [l]
  | some p => [p.1, p.2]

/-- Python `s.split(sep)` for a one-character separator. -/
def splitOnChar (l : List Char) (c : Char) : List (List Char) :=
  match l with
  | [] => [[]]
  | a :: rest =>
    if a = c then [] :: splitOnChar rest c
    else
      match splitOnChar rest c with
      | [] => [[a]]
      | h :: t => (a :: h) :: t

/-- The three-backtick code-fence marker. -/
def fenceMark : List Char := [backtick, backtick, backtick]

/-- The separator `". "` used by the numbered-list rule. -/
def dotSpace : List Char := ['.', ' ']

/-- What the classifier decides about one (already stripped) line. -/
inductive LineClass where
  | blank
  | heading (level : Nat) (text : List Char)
  | fenceStart
  | bullet (text : List Char)
  | numbered (text : List Char)
  | para (parts : List (List Char))
deriving DecidableEq

/-- Python `line.split('. ', 1)[1]` (total version; the caller guards the
occurrence of `". "`). -/
def numberedText (line : List Char) : List Char :=
  match splitFirst dotSpace line with
  | some p => p.2
  | none => []

/-- Classification of one stripped line, mirroring the `elif` chain of
`convert_markdown_to_word` in source order. -/
def classifyLine (line : List Char) : LineClass :=
  if line = [] then .blank
  else if pyStartsWith ['#', ' '] line then .heading 1 (line.drop 2)
  else if pyStartsWith ['#', '#', ' '] line then .heading 2 (line.drop 3)
  else if pyStartsWith ['#', '#', '#', ' '] line then .heading 3 (line.drop 4)
  else if pyStartsWith ['#', '#', '#', '#', ' '] line then .heading 4 (line.drop 5)
  else if pyStartsWith fenceMark line then .fenceStart
  else if pyStartsWith ['-', ' '] line || pyStartsWith ['*', ' '] line then
    .bullet (line.drop 2)
  else if (line.headD 'A').isDigit && containsSub dotSpace (line.take 5) then
    .numbered (numberedText line)
  else .para (splitOnChar line backtick)

/-- Classification with the two partial operations of the source made
explicit: `line[0]` (only defined on a non-empty line) and
`line.split('. ', 1)[1]` (only defined when the split yields two pieces).
`none` models an IndexError. -/
def classifyOpt (line : List Char) : Option LineClass :=
  if line = [] then some .blank
  else if pyStartsWith ['#', ' '] line then some (.heading 1 (line.drop 2))
  else if pyStartsWith ['#', '#', ' '] line then some (.heading 2 (line.drop 3))
  else if pyStartsWith ['#', '#', '#', ' '] line then some (.heading 3 (line.drop 4))
  else if pyStartsWith ['#', '#', '#', '#', ' '] line then some (.heading 4 (line.drop 5))
  else if pyStartsWith fenceMark line then some .fenceStart
  else if pyStartsWith ['-', ' '] line || pyStartsWith ['*', ' '] line then
    some (.bullet (line.drop 2))
  else
    match line.head? with
    | none => none
    | some c =>
      if c.isDigit && containsSub dotSpace (line.take 5) then
        match (pySplit1 dotSpace line).get? 1 with
        | none => none
        | some t => some (.numbered t)
      else some (.para (splitOnChar line backtick))

/-- One text run of a paragraph; `mono` marks the Courier New (inline
code) style. -/
structure Run where
  text : List Char
  mono : Bool
deriving DecidableEq

/-- A block appended to the output document. -/
inductive Block where
  | heading (level : Nat) (text : List Char)
  | code (text : List Char)
  | bullet (text : List Char)
  | numbered (text : List Char)
  | para (runs : List Run)
deriving DecidableEq

/-- The runs of a paragraph: the split parts in order, alternating
plain/mono starting from `m` (the source enumerates parts and styles the
odd-indexed ones). -/
def mkRuns : List (List Char) → Bool → List Run
  | [], _ => []
  | p :: rest, m => Run.mk p m :: mkRuns rest (!m)

/-- The `code_lines` collected by the inner fence loop: the raw lines
after the opening fence at `i`, up to (excluding) the first line whose
stripped form again starts with the fence marker, or the end of input. -/
def fenceBody (lines : List (List Char)) (i : Nat) : List (List Char) :=
  (lines.drop (i + 1)).takeWhile fun l => !(pyStartsWith fenceMark (pyStrip l))

/-- One iteration of the `while i < len(lines)` loop: the blocks appended
(annotated with the index of the line that produced them) and the new
cursor.  The code-fence branch collects raw lines after the fence until a
line whose stripped form again starts with the fence marker (or the end of
input); note the source does not advance past the closing fence. -/
def stepAt (lines : List (List Char)) (i : Nat) : List (Nat × Block) × Nat :=
  match classifyLine (pyStrip (lines.getD i [])) with
  | .blank => ([], i + 1)
  | .heading n t => ([(i, Block.heading n t)], i + 1)
  | .fenceStart =>
    ((if (fenceBody lines i).isEmpty then []
      else [(i, Block.code (fenceBody lines i).flatten)]),
      i + 1 + (fenceBody lines i).length)
  | .bullet t => ([(i, Block.bullet t)], i + 1)
  | .numbered t => ([(i, Block.numbered t)], i + 1)
  | .para parts => ([(i, Block.para (mkRuns parts false))], i + 1)

/-- The conversion loop, driven by explicit fuel (each iteration advances
the cursor by at least one, so `lines.length - i` units suffice; see
`processAnn_eq`). -/
def loopAnn : Nat → List (List Char) → Nat → List (Nat × Block)
  | 0, _, _ => []
  | fuel + 1, lines, i =>
    if i < lines.length then
      (stepAt lines i).1 ++ loopAnn fuel lines (stepAt lines i).2
    else []

/-- All annotated blocks emitted from cursor `i` to the end of input. -/
def processAnn (lines : List (List Char)) (i : Nat) : List (Nat × Block) :=
  loopAnn (lines.length - i) lines i

/-- The whole conversion: split the file content on newlines and run the
loop from cursor 0. -/
def convert_markdown_to_word (content : List Char) : List Block :=
  (processAnn (splitOnChar content (Char.ofNat 10)) 0).map Prod.snd

/-- Outcome of running the script: either `sys.exit(code)` after printing
`messages`, or a document written to `path` with a confirmation. -/
inductive Outcome where
  | exited (code : Nat) (messages : List String)
  | wrote (path : String) (doc : List Block) (messages : List String)
deriving DecidableEq

/-- Message printed when the docx/markdown imports fail. -/
def pkgMsg1 : String := "Error: Required packages not installed."

/-- Second message printed when the imports fail. -/
def pkgMsg2 : String := "Please install: pip install python-docx markdown"

/-- Message printed when the hard-coded input file is missing. -/
def notFoundMsg : String := "Error: BONZAI_COMPREHENSIVE_SUMMARY.md not found"

/-- Confirmation message printed on success. -/
def doneMsg : String :=
  "Successfully converted BONZAI_COMPREHENSIVE_SUMMARY.md to BONZAI_COMPREHENSIVE_SUMMARY.docx"

/-- The script's top level: the import guard, then the `__main__` block
(existence check on the hard-coded input path, then conversion). -/
def scriptMain (importsOk inputExists : Bool) (content : List Char) : Outcome :=
  if importsOk = false then .exited 1 [pkgMsg1, pkgMsg2]
  else if inputExists = false then .exited 1 [notFoundMsg]
  else .wrote "BONZAI_COMPREHENSIVE_SUMMARY.docx"
    (convert_markdown_to_word content) [doneMsg]

/-! Section: Helper lemmas about the string primitives -/

theorem pyStartsWith_iff (p : List Char) :
    ∀ l, pyStartsWith p l = true ↔ ∃ rest, l = p ++ rest := by
  induction p with
  | nil => intro l; simp [pyStartsWith]
  | cons x xs ih =>
    intro l
    cases l with
    | nil =>
      simp only [pyStartsWith, List.cons_append]
      constructor
      · intro hf; exact absurd hf (by simp)
      · rintro ⟨rest, hr⟩; exact absurd hr (by simp)
    | cons c cs =>
      simp only [pyStartsWith]
      by_cases h : x = c
      · subst h
        rw [if_pos rfl, ih cs]
        constructor
        · rintro ⟨rest, rfl⟩
          exact ⟨rest, by simp⟩
        · rintro ⟨rest, hr⟩
          refine ⟨rest, ?_⟩
          exact (by simpa using hr : cs = xs ++ rest)
      · rw [if_neg h]
        constructor
        · intro hf; exact absurd hf (by simp)
        · rintro ⟨rest, hr⟩
          have h2 : c = x ∧ cs = xs ++ rest := by simpa using hr
          exact absurd h2.1.symm h

theorem pyStartsWith_of_take (p : List Char) :
    ∀ n l, pyStartsWith p (l.take n) = true → pyStartsWith p l = true := by
  intro n l h
  rw [pyStartsWith_iff] at h ⊢
  obtain ⟨rest, hr⟩ := h
  exact ⟨rest ++ l.drop n, by rw [← List.append_assoc, ← hr, List.take_append_drop]⟩

theorem splitFirst_eq_some (sep : List Char) :
    ∀ l a b, splitFirst sep l = some (a, b) → l = a ++ sep ++ b := by
  intro l
  induction l with
  | nil =>
    intro a b h
    simp only [splitFirst] at h
    by_cases hs : sep = []
    · rw [if_pos hs] at h
      simp only [Option.some.injEq, Prod.mk.injEq] at h
      rw [← h.1, ← h.2, hs]
      rfl
    · rw [if_neg hs] at h
      exact Option.noConfusion h
  | cons c rest ih =>
    intro a b h
    simp only [splitFirst] at h
    by_cases hp : pyStartsWith sep (c :: rest) = true
    · rw [if_pos hp] at h
      simp only [Option.some.injEq, Prod.mk.injEq] at h
      obtain ⟨tail, ht⟩ := (pyStartsWith_iff sep (c :: rest)).mp hp
      rw [← h.1, ← h.2, ht, List.drop_left]
      simp
    · rw [if_neg hp] at h
      cases hf : splitFirst sep rest with
      | none =>
        simp only [hf] at h
        exact Option.noConfusion h
      | some p =>
        obtain ⟨a₀, b₀⟩ := p
        simp only [hf, Option.some.injEq, Prod.mk.injEq] at h
        rw [← h.1, ← h.2, ih a₀ b₀ hf]
        simp

theorem splitFirst_min (sep : List Char) :
    ∀ l a b, splitFirst sep l = some (a, b) →
      ∀ a' b', l = a' ++ sep ++ b' → a.length ≤ a'.length := by
  intro l
  induction l with
  | nil =>
    intro a b h a' b' _
    simp only [splitFirst] at h
    by_cases hs : sep = []
    · rw [if_pos hs] at h
      simp only [Option.some.injEq, Prod.mk.injEq] at h
      rw [← h.1]
      simp
    · rw [if_neg hs] at h
      exact Option.noConfusion h
  | cons c rest ih =>
    intro a b h a' b' hl
    simp only [splitFirst] at h
    by_cases hp : pyStartsWith sep (c :: rest) = true
    · rw [if_pos hp] at h
      simp only [Option.some.injEq, Prod.mk.injEq] at h
      rw [← h.1]
      simp
    · rw [if_neg hp] at h
      cases hf : splitFirst sep rest with
      | none =>
        simp only [hf] at h
        exact Option.noConfusion h
      | some p =>
        obtain ⟨a₀, b₀⟩ := p
        simp only [hf, Option.some.injEq, Prod.mk.injEq] at h
        cases a' with
        | nil =>
          exfalso
          exact hp ((pyStartsWith_iff sep (c :: rest)).mpr ⟨b', by simpa using hl⟩)
        | cons c' a₁ =>
          obtain ⟨-, hrest⟩ :=
            List.cons_eq_cons.mp (by simpa only [List.cons_append] using hl)
          rw [← h.1]
          simp only [List.length_cons, Nat.succ_le_succ_iff]
          exact ih a₀ b₀ hf a₁ b' hrest

theorem containsSub_isSome (sep : List Char) :
    ∀ l, containsSub sep l = (splitFirst sep l).isSome := by
  intro l
  induction l with
  | nil =>
    simp only [containsSub, splitFirst]
    by_cases hs : sep = []
    · rw [if_pos hs, hs]; rfl
    · rw [if_neg hs]
      cases sep with
      | nil => exact absurd rfl hs
      | cons s ss => rfl
  | cons c rest ih =>
    simp only [containsSub, splitFirst]
    cases hp : pyStartsWith sep (c :: rest) with
    | true => simp
    | false =>
      simp only [Bool.false_or]
      rw [if_neg (by simp), ih]
      cases splitFirst sep rest with
      | none => rfl
      | some p => rfl

theorem containsSub_of_take (sep : List Char) (n : Nat) :
    ∀ l, containsSub sep (l.take n) = true → containsSub sep l = true := by
  intro l
  induction l generalizing n with
  | nil => rw [List.take_nil]; exact id
  | cons c rest ih =>
    intro h
    cases n with
    | zero =>
      simp only [List.take_zero, containsSub, List.isEmpty_iff] at h
      subst h
      simp [containsSub, pyStartsWith]
    | succ m =>
      simp only [List.take_succ_cons, containsSub] at h ⊢
      cases h1 : pyStartsWith sep (c :: List.take m rest) with
      | true =>
        rw [pyStartsWith_of_take sep (m + 1) (c :: rest) h1]
        rfl
      | false =>
        rw [h1] at h
        simp only [Bool.false_or] at h
        rw [ih m h]
        simp

theorem splitOnChar_ne_nil (l : List Char) (c : Char) : splitOnChar l c ≠ [] := by
  cases l with
  | nil => simp [splitOnChar]
  | cons a rest =>
    simp only [splitOnChar]
    by_cases h : a = c
    · simp [h]
    · rw [if_neg h]
      cases splitOnChar rest c with
      | nil => simp
      | cons x t => simp

theorem splitOnChar_flatten (c : Char) :
    ∀ l, (splitOnChar l c).flatten = l.filter (fun x => x != c) := by
  intro l
  induction l with
  | nil => rfl
  | cons a rest ih =>
    simp only [splitOnChar]
    by_cases h : a = c
    · subst h
      rw [if_pos rfl, List.flatten_cons, List.nil_append, ih, List.filter_cons]
      simp
    · rw [if_neg h]
      cases hs : splitOnChar rest c with
      | nil => exact absurd hs (splitOnChar_ne_nil rest c)
      | cons x t =>
        have hx : x ++ t.flatten = rest.filter (fun y => y != c) := by
          have h2 := ih
          rw [hs] at h2
          simpa using h2
        rw [List.flatten_cons, List.cons_append, List.filter_cons,
          if_pos (by simpa using h), hx]

theorem mkRuns_text :
    ∀ (parts : List (List Char)) (m : Bool), (mkRuns parts m).map Run.text = parts := by
  intro parts
  induction parts with
  | nil => intro m; rfl
  | cons p rest ih => intro m; simp [mkRuns, ih]

theorem mkRuns_mono :
    ∀ (parts : List (List Char)) (m : Bool) (k : Nat) (d : Run),
      k < parts.length →
      ((mkRuns parts m).getD k d).mono = (if k % 2 = 0 then m else !m) := by
  intro parts
  induction parts with
  | nil => intro m k d hk; simp at hk
  | cons p rest ih =>
    intro m k d hk
    cases k with
    | zero => simp [mkRuns]
    | succ j =>
      simp only [mkRuns, List.getD_cons_succ]
      rw [ih (!m) j d (by simpa using hk)]
      by_cases hj : j % 2 = 0
      · rw [if_pos hj, if_neg (by omega)]
      · rw [if_neg hj, if_pos (by omega)]
        simp

theorem drop_getD {α : Type} (d : α) :
    ∀ (l : List α) (n j : Nat), (l.drop n).getD j d = l.getD (n + j) d := by
  intro l
  induction l with
  | nil => intro n j; simp [List.drop_nil]
  | cons a rest ih =>
    intro n j
    cases n with
    | zero => simp
    | succ m =>
      rw [List.drop_succ_cons, ih m j]
      have hm : m + 1 + j = (m + j) + 1 := by omega
      rw [hm, List.getD_cons_succ]

theorem takeWhile_getD {α : Type} (p : α → Bool) (d : α) :
    ∀ (l : List α) (j : Nat), j < (l.takeWhile p).length →
      (l.takeWhile p).getD j d = l.getD j d ∧ p (l.getD j d) = true := by
  intro l
  induction l with
  | nil => intro j hj; simp at hj
  | cons a rest ih =>
    intro j hj
    rw [List.takeWhile_cons] at hj ⊢
    by_cases hp : p a = true
    · rw [if_pos hp] at hj ⊢
      cases j with
      | zero => exact ⟨rfl, by simpa using hp⟩
      | succ i =>
        rw [List.getD_cons_succ, List.getD_cons_succ]
        exact ih i (by simpa using hj)
    · rw [if_neg hp] at hj
      simp at hj

theorem takeWhile_stop {α : Type} (p : α → Bool) (d : α) :
    ∀ (l : List α), (l.takeWhile p).length < l.length →
      p (l.getD (l.takeWhile p).length d) = false := by
  intro l
  induction l with
  | nil => intro h; simp at h
  | cons a rest ih =>
    intro h
    rw [List.takeWhile_cons] at h ⊢
    by_cases hp : p a = true
    · rw [if_pos hp] at h ⊢
      simp only [List.length_cons, List.getD_cons_succ]
      exact ih (by simpa using h)
    · rw [if_neg hp] at h ⊢
      simp only [List.length_nil, List.getD_cons_zero]
      cases hx : p a with
      | true => exact absurd hx hp
      | false => rfl

/-! Section: Lemmas about the conversion loop -/

theorem stepAt_snd_ge (lines : List (List Char)) (i : Nat) :
    i + 1 ≤ (stepAt lines i).2 := by
  unfold stepAt
  cases classifyLine (pyStrip (lines.getD i [])) <;> dsimp only <;> omega

theorem stepAt_fst_idx (lines : List (List Char)) (i : Nat) :
    ∀ q, q ∈ (stepAt lines i).1 → q.1 = i := by
  intro q hq
  unfold stepAt at hq
  cases h : classifyLine (pyStrip (lines.getD i [])) <;> rw [h] at hq <;> simp at hq
  case heading n t => rw [hq]
  case fenceStart => rw [hq.2]
  case bullet t => rw [hq]
  case numbered t => rw [hq]
  case para parts => rw [hq]

theorem loopAnn_eq_of_le :
    ∀ f g (lines : List (List Char)) (i : Nat),
      lines.length - i ≤ f → lines.length - i ≤ g →
      loopAnn f lines i = loopAnn g lines i := by
  intro f
  induction f with
  | zero =>
    intro g lines i hf _
    have hi : ¬ i < lines.length := by omega
    cases g with
    | zero => rfl
    | succ g' => simp [loopAnn, hi]
  | succ f' ih =>
    intro g lines i hf hg
    cases g with
    | zero =>
      have hi : ¬ i < lines.length := by omega
      simp [loopAnn, hi]
    | succ g' =>
      simp only [loopAnn]
      by_cases hi : i < lines.length
      · rw [if_pos hi, if_pos hi]
        have hnext := stepAt_snd_ge lines i
        congr 1
        exact ih g' lines (stepAt lines i).2 (by omega) (by omega)
      · rw [if_neg hi, if_neg hi]

theorem processAnn_rec (lines : List (List Char)) (i : Nat) :
    processAnn lines i =
      if i < lines.length then
        (stepAt lines i).1 ++ processAnn lines (stepAt lines i).2
      else [] := by
  unfold processAnn
  by_cases hi : i < lines.length
  · rw [if_pos hi]
    have h1 : lines.length - i = (lines.length - i - 1) + 1 := by omega
    rw [h1]
    simp only [loopAnn]
    rw [if_pos hi]
    congr 1
    apply loopAnn_eq_of_le
    · have := stepAt_snd_ge lines i; omega
    · omega
  · rw [if_neg hi]
    have h0 : lines.length - i = 0 := by omega
    rw [h0]
    rfl

theorem loopAnn_idx_ge :
    ∀ f (lines : List (List Char)) (i : Nat) q, q ∈ loopAnn f lines i → i ≤ q.1 := by
  intro f
  induction f with
  | zero => intro lines i q hq; simp [loopAnn] at hq
  | succ f' ih =>
    intro lines i q hq
    simp only [loopAnn] at hq
    by_cases hi : i < lines.length
    · rw [if_pos hi] at hq
      rcases List.mem_append.mp hq with h1 | h2
      · exact Nat.le_of_eq (stepAt_fst_idx lines i q h1).symm
      · have := ih lines (stepAt lines i).2 q h2
        have h3 := stepAt_snd_ge lines i
        omega
    · rw [if_neg hi] at hq
      simp at hq

theorem loopAnn_pairwise :
    ∀ f (lines : List (List Char)) (i : Nat),
      (loopAnn f lines i).Pairwise (fun p q => p.1 ≤ q.1) := by
  intro f
  induction f with
  | zero => intro lines i; simp [loopAnn]
  | succ f' ih =>
    intro lines i
    simp only [loopAnn]
    by_cases hi : i < lines.length
    · rw [if_pos hi]
      apply List.pairwise_append.mpr
      refine ⟨?_, ih lines (stepAt lines i).2, ?_⟩
      · apply List.pairwise_of_forall_mem_list
        intro q hq r hr
        rw [stepAt_fst_idx lines i q hq, stepAt_fst_idx lines i r hr]
      · intro q hq r hr
        have h1 := stepAt_fst_idx lines i q hq
        have h2 := loopAnn_idx_ge f' lines (stepAt lines i).2 r hr
        have h3 := stepAt_snd_ge lines i
        omega
    · rw [if_neg hi]
      exact List.Pairwise.nil

theorem ne_of_isDigit (c p : Char) (hc : c.isDigit = true) (hp : p.isDigit = false) :
    p ≠ c := by
  intro e
  rw [e, hc] at hp
  exact Bool.noConfusion hp

theorem takeWhile_length_le {α : Type} (p : α → Bool) :
    ∀ l : List α, (l.takeWhile p).length ≤ l.length := by
  intro l
  induction l with
  | nil => simp
  | cons a rest ih =>
    rw [List.takeWhile_cons]
    by_cases hp : p a = true
    · rw [if_pos hp]
      simpa using ih
    · rw [if_neg hp]
      simp

/-! Section: Classification lemmas -/

theorem classifyLine_heading_iff (line t : List Char) (N : Nat) :
    classifyLine line = LineClass.heading N t ↔
      1 ≤ N ∧ N ≤ 4 ∧ line = List.replicate N '#' ++ ' ' :: t := by
  constructor
  · intro hc
    unfold classifyLine at hc
    split_ifs at hc with h0 h1 h2 h3 h4 h5 h6 h7
    · obtain ⟨rest, hr⟩ := (pyStartsWith_iff ['#', ' '] line).mp h1
      injection hc with hN ht
      refine ⟨by omega, by omega, ?_⟩
      rw [← hN, ← ht, hr]
      rfl
    · obtain ⟨rest, hr⟩ := (pyStartsWith_iff ['#', '#', ' '] line).mp h2
      injection hc with hN ht
      refine ⟨by omega, by omega, ?_⟩
      rw [← hN, ← ht, hr]
      rfl
    · obtain ⟨rest, hr⟩ := (pyStartsWith_iff ['#', '#', '#', ' '] line).mp h3
      injection hc with hN ht
      refine ⟨by omega, by omega, ?_⟩
      rw [← hN, ← ht, hr]
      rfl
    · obtain ⟨rest, hr⟩ := (pyStartsWith_iff ['#', '#', '#', '#', ' '] line).mp h4
      injection hc with hN ht
      refine ⟨by omega, by omega, ?_⟩
      rw [← hN, ← ht, hr]
      rfl
  · rintro ⟨hN1, hN4, rfl⟩
    interval_cases N
    · have hrep : List.replicate 1 '#' = ['#'] := rfl
      rw [hrep]
      simp [classifyLine, pyStartsWith]
    · have hrep : List.replicate 2 '#' = ['#', '#'] := rfl
      rw [hrep]
      simp [classifyLine, pyStartsWith]
    · have hrep : List.replicate 3 '#' = ['#', '#', '#'] := rfl
      rw [hrep]
      simp [classifyLine, pyStartsWith]
    · have hrep : List.replicate 4 '#' = ['#', '#', '#', '#'] := rfl
      rw [hrep]
      simp [classifyLine, pyStartsWith]

theorem classifyLine_fence_iff (line : List Char) :
    classifyLine line = LineClass.fenceStart ↔ pyStartsWith fenceMark line = true := by
  constructor
  · intro hc
    unfold classifyLine at hc
    split_ifs at hc with h0 h1 h2 h3 h4 h5 h6 h7
    exact h5
  · intro hf
    obtain ⟨rest, rfl⟩ := (pyStartsWith_iff fenceMark line).mp hf
    simp [classifyLine, pyStartsWith, fenceMark, backtick]

theorem stepAt_heading_iff (lines : List (List Char)) (i N : Nat) (t : List Char) :
    (stepAt lines i).1 = [(i, Block.heading N t)] ↔
      classifyLine (pyStrip (lines.getD i [])) = LineClass.heading N t := by
  unfold stepAt
  cases h : classifyLine (pyStrip (lines.getD i [])) <;> dsimp only <;> simp
  case fenceStart => split <;> simp

theorem stepAt_of_fence (lines : List (List Char)) (i : Nat)
    (hf : pyStartsWith fenceMark (pyStrip (lines.getD i [])) = true) :
    stepAt lines i =
      ((if (fenceBody lines i).isEmpty then []
        else [(i, Block.code (fenceBody lines i).flatten)]),
        i + 1 + (fenceBody lines i).length) := by
  unfold stepAt
  rw [(classifyLine_fence_iff _).mpr hf]

theorem pyStartsWith_head_ne (p c : Char) (ps cs : List Char) (h : p ≠ c) :
    pyStartsWith (p :: ps) (c :: cs) = false := by
  simp [pyStartsWith, h]

/-! Section: Claim theorems -/

/-- Claim C2: a heading block of level `N` is emitted at cursor `i` if and
only if `1 ≤ N ≤ 4` and the trimmed line is exactly `N` `#` characters
followed by a space followed by the heading text; in particular a line
beginning `#### ` is never emitted as a level-1, -2 or -3 heading. -/
theorem heading_level_iff (lines : List (List Char)) (i N : Nat) (t : List Char) :
    (stepAt lines i).1 = [(i, Block.heading N t)] ↔
      1 ≤ N ∧ N ≤ 4 ∧
        pyStrip (lines.getD i []) = List.replicate N '#' ++ ' ' :: t := by
  rw [stepAt_heading_iff, classifyLine_heading_iff]

/-- Claim C8: the emitted blocks appear in input order: the annotated
output of the loop (each block tagged with the index of the source line
that produced it) has pairwise non-decreasing source indices, and the
final document is exactly this annotated sequence with the tags dropped
(append-only, no reordering). -/
theorem blocks_in_input_order (content : List Char) :
    (processAnn (splitOnChar content (Char.ofNat 10)) 0).map Prod.snd =
        convert_markdown_to_word content ∧
      (processAnn (splitOnChar content (Char.ofNat 10)) 0).Pairwise
        (fun p q => p.1 ≤ q.1) :=
  ⟨rfl, loopAnn_pairwise _ _ _⟩

/-- Claim C9: while the cursor is in range it advances by at least 1 on
every iteration — by exactly 1 on every non-fence line and by the number
of consumed body lines plus 1 on a code fence — and the total function
`processAnn` satisfies the loop's recurrence, so the conversion loop
terminates on every finite input. -/
theorem cursor_advances (lines : List (List Char)) (i : Nat) :
    (i < lines.length →
      i + 1 ≤ (stepAt lines i).2 ∧
      (classifyLine (pyStrip (lines.getD i [])) = LineClass.fenceStart →
        (stepAt lines i).2 = i + 1 + (fenceBody lines i).length) ∧
      (classifyLine (pyStrip (lines.getD i [])) ≠ LineClass.fenceStart →
        (stepAt lines i).2 = i + 1)) ∧
    processAnn lines i =
      (if i < lines.length then
        (stepAt lines i).1 ++ processAnn lines (stepAt lines i).2
      else []) := by
  refine ⟨fun _ => ⟨stepAt_snd_ge lines i, ?_, ?_⟩, processAnn_rec lines i⟩
  · intro hc
    unfold stepAt
    rw [hc]
  · intro hc
    unfold stepAt
    cases h : classifyLine (pyStrip (lines.getD i [])) <;>
      first
        | exact absurd h hc
        | rfl

/-- Witness for C9 at concrete inputs: an ordinary line advances the
cursor from 0 to 1; an unclosed fence with two body lines advances it
from 0 to 3. -/
theorem cursor_advances_witness :
    (stepAt [['a']] 0).2 = 1 ∧ (stepAt [fenceMark, ['a'], ['b']] 0).2 = 3 := by
  constructor
  · exact ((cursor_advances [['a']] 0).1 (by decide)).2.2 (by decide)
  · have h := ((cursor_advances [fenceMark, ['a'], ['b']] 0).1 (by decide)).2.1
      (by decide)
    rw [h]
    decide

/-- Claim C10: the classifier's partial operations are guarded: run with
the two partial operations (`line[0]` and `split('. ', 1)[1]`) made
explicit as `Option`s, classification never returns `none` — it always
agrees with the total classifier. -/
theorem classifyOpt_never_fails (line : List Char) :
    classifyOpt line = some (classifyLine line) := by
  unfold classifyOpt classifyLine
  by_cases h0 : line = []
  · rw [if_pos h0, if_pos h0]
  rw [if_neg h0, if_neg h0]
  by_cases h1 : pyStartsWith ['#', ' '] line = true
  · rw [if_pos h1, if_pos h1]
  rw [if_neg h1, if_neg h1]
  by_cases h2 : pyStartsWith ['#', '#', ' '] line = true
  · rw [if_pos h2, if_pos h2]
  rw [if_neg h2, if_neg h2]
  by_cases h3 : pyStartsWith ['#', '#', '#', ' '] line = true
  · rw [if_pos h3, if_pos h3]
  rw [if_neg h3, if_neg h3]
  by_cases h4 : pyStartsWith ['#', '#', '#', '#', ' '] line = true
  · rw [if_pos h4, if_pos h4]
  rw [if_neg h4, if_neg h4]
  by_cases h5 : pyStartsWith fenceMark line = true
  · rw [if_pos h5, if_pos h5]
  rw [if_neg h5, if_neg h5]
  by_cases h6 : (pyStartsWith ['-', ' '] line || pyStartsWith ['*', ' '] line) = true
  · rw [if_pos h6, if_pos h6]
  rw [if_neg h6, if_neg h6]
  cases line with
  | nil => exact absurd rfl h0
  | cons c rest =>
    simp only [List.head?_cons, List.headD_cons]
    by_cases h7 : (c.isDigit && containsSub dotSpace ((c :: rest).take 5)) = true
    · rw [if_pos h7, if_pos h7]
      obtain ⟨-, hcont⟩ : c.isDigit = true ∧
          containsSub dotSpace ((c :: rest).take 5) = true := by simpa using h7
      have hco : containsSub dotSpace (c :: rest) = true :=
        containsSub_of_take dotSpace 5 (c :: rest) hcont
      have hsf : (splitFirst dotSpace (c :: rest)).isSome = true := by
        rw [← containsSub_isSome]
        exact hco
      cases hs : splitFirst dotSpace (c :: rest) with
      | none => rw [hs] at hsf; exact Bool.noConfusion hsf
      | some p => simp [pySplit1, numberedText, hs]
    · rw [if_neg h7, if_neg h7]

/-- Claim C1 (evidence of the divergence): on the input
`"` + three backticks + `\na\n` + three backticks + `\nb"` the source does
not advance the cursor past the closing fence: after emitting the code
block `"a"` the cursor is 2, the index of the closing fence, whose
stripped form again starts with the fence marker, so it opens a new fence
and `"b"` is emitted as a second code block instead of a paragraph. -/
theorem closing_fence_not_consumed :
    convert_markdown_to_word
        (fenceMark ++ ['\n', 'a', '\n'] ++ fenceMark ++ ['\n', 'b']) =
      [Block.code ['a'], Block.code ['b']] ∧
    (stepAt (splitOnChar
        (fenceMark ++ ['\n', 'a', '\n'] ++ fenceMark ++ ['\n', 'b'])
        (Char.ofNat 10)) 0).2 = 2 ∧
    pyStartsWith fenceMark (pyStrip ((splitOnChar
        (fenceMark ++ ['\n', 'a', '\n'] ++ fenceMark ++ ['\n', 'b'])
        (Char.ofNat 10)).getD 2 [])) = true := by
  refine ⟨by decide, by decide, by decide⟩

/-- Claim C6 (counterexample): the line `"3.14 is pi"` is NOT classified
as a numbered-list item: `". "` (period followed by space) does not occur
in its first five characters, so it is classified as a paragraph. -/
theorem pi_line_is_paragraph :
    classifyLine "3.14 is pi".data = LineClass.para ["3.14 is pi".data] ∧
    convert_markdown_to_word "3.14 is pi".data =
      [Block.para [Run.mk "3.14 is pi".data false]] := by
  refine ⟨by decide, by decide⟩

/-- Claim C6 (amended): the numbered-list heuristic does misfire on
ordinary sentences that start with a number followed by a period AND a
space within the first five characters: `"42. So it goes"` is classified
as a numbered-list item, not a paragraph. -/
theorem numbered_misfire_sentence :
    classifyLine "42. So it goes".data = LineClass.numbered "So it goes".data ∧
    convert_markdown_to_word "42. So it goes".data =
      [Block.numbered "So it goes".data] := by
  refine ⟨by decide, by decide⟩

/-- Claim C3: every non-empty trimmed line matching no heading, fence,
bullet or numbered rule emits exactly one paragraph block; its runs are
the segments of the line split on the backtick character in original
order, even-indexed segments plain and odd-indexed ones fixed-width, and
the concatenation of the run texts is the trimmed line with the backtick
characters removed. -/
theorem paragraph_fallback (lines : List (List Char)) (i : Nat)
    (h0 : pyStrip (lines.getD i []) ≠ [])
    (h1 : pyStartsWith ['#', ' '] (pyStrip (lines.getD i [])) = false)
    (h2 : pyStartsWith ['#', '#', ' '] (pyStrip (lines.getD i [])) = false)
    (h3 : pyStartsWith ['#', '#', '#', ' '] (pyStrip (lines.getD i [])) = false)
    (h4 : pyStartsWith ['#', '#', '#', '#', ' '] (pyStrip (lines.getD i [])) = false)
    (h5 : pyStartsWith fenceMark (pyStrip (lines.getD i [])) = false)
    (h6 : pyStartsWith ['-', ' '] (pyStrip (lines.getD i [])) = false)
    (h7 : pyStartsWith ['*', ' '] (pyStrip (lines.getD i [])) = false)
    (h8 : (((pyStrip (lines.getD i [])).headD 'A').isDigit &&
      containsSub dotSpace ((pyStrip (lines.getD i [])).take 5)) = false) :
    stepAt lines i =
      ([(i, Block.para
          (mkRuns (splitOnChar (pyStrip (lines.getD i [])) backtick) false))],
        i + 1) ∧
    ((mkRuns (splitOnChar (pyStrip (lines.getD i [])) backtick) false).map
        Run.text).flatten =
      (pyStrip (lines.getD i [])).filter (fun x => x != backtick) ∧
    ∀ k, k < (splitOnChar (pyStrip (lines.getD i [])) backtick).length →
      ((mkRuns (splitOnChar (pyStrip (lines.getD i [])) backtick) false).getD k
        (Run.mk [] false)).mono = decide (k % 2 = 1) := by
  have hcl : classifyLine (pyStrip (lines.getD i [])) =
      LineClass.para (splitOnChar (pyStrip (lines.getD i [])) backtick) := by
    unfold classifyLine
    rw [if_neg h0, if_neg (by simp only [h1]; decide),
      if_neg (by simp only [h2]; decide), if_neg (by simp only [h3]; decide),
      if_neg (by simp only [h4]; decide), if_neg (by simp only [h5]; decide),
      if_neg (by simp only [h6, h7]; decide), if_neg (by simp only [h8]; decide)]
  refine ⟨?_, ?_, ?_⟩
  · unfold stepAt
    rw [hcl]
  · rw [mkRuns_text, splitOnChar_flatten]
  · intro k hk
    rw [mkRuns_mono _ _ _ _ hk]
    by_cases hpar : k % 2 = 0
    · rw [if_pos hpar]
      have hne : ¬ (k % 2 = 1) := by omega
      simp [hne]
    · rw [if_neg hpar]
      have hone : k % 2 = 1 := by omega
      simp [hone]

/-- Witness for C3 at the concrete input `"text "` + backtick + `"code"`
(a line with an odd number of backticks): one paragraph with a plain run
`"text "` and a fixed-width run `"code"`. -/
theorem paragraph_fallback_witness :
    stepAt [['t', 'e', 'x', 't', ' ', backtick, 'c', 'o', 'd', 'e']] 0 =
      ([(0, Block.para [Run.mk "text ".data false, Run.mk "code".data true])],
        1) ∧
    ((mkRuns (splitOnChar
        (pyStrip ([['t', 'e', 'x', 't', ' ', backtick, 'c', 'o', 'd', 'e']].getD 0 []))
        backtick) false).map Run.text).flatten =
      (pyStrip ([['t', 'e', 'x', 't', ' ', backtick, 'c', 'o', 'd', 'e']].getD 0 [])).filter
        (fun x => x != backtick) ∧
    ((mkRuns (splitOnChar
        (pyStrip ([['t', 'e', 'x', 't', ' ', backtick, 'c', 'o', 'd', 'e']].getD 0 []))
        backtick) false).getD 1 (Run.mk [] false)).mono = true := by
  have h := paragraph_fallback [['t', 'e', 'x', 't', ' ', backtick, 'c', 'o', 'd', 'e']] 0
    (by decide) (by decide) (by decide) (by decide) (by decide) (by decide)
    (by decide) (by decide) (by decide)
  refine ⟨?_, h.2.1, ?_⟩
  · rw [h.1]
    decide
  · have h3 := h.2.2 1 (by decide)
    rw [h3]
    decide

/-- Claim C4: when the line at the cursor opens a code fence, the emitted
block's text is the concatenation of the raw body lines with no separator
inserted, where the body lines are exactly the raw input lines strictly
between the fence and the next line whose stripped form starts with the
fence marker (or the end of input); if the body is empty no block is
emitted. -/
theorem code_fence_payload (lines : List (List Char)) (i : Nat)
    (h : i < lines.length)
    (hf : pyStartsWith fenceMark (pyStrip (lines.getD i [])) = true) :
    (stepAt lines i).1 =
      (if (fenceBody lines i).isEmpty then []
       else [(i, Block.code (fenceBody lines i).flatten)]) ∧
    (∀ j, j < (fenceBody lines i).length →
      (fenceBody lines i).getD j [] = lines.getD (i + 1 + j) [] ∧
      pyStartsWith fenceMark (pyStrip (lines.getD (i + 1 + j) [])) = false) ∧
    (i + 1 + (fenceBody lines i).length = lines.length ∨
      pyStartsWith fenceMark
        (pyStrip (lines.getD (i + 1 + (fenceBody lines i).length) [])) = true) := by
  refine ⟨?_, ?_, ?_⟩
  · rw [stepAt_of_fence lines i hf]
  · intro j hj
    have hj' : j < ((lines.drop (i + 1)).takeWhile
        (fun l => !(pyStartsWith fenceMark (pyStrip l)))).length := hj
    have h2 := takeWhile_getD (fun l => !(pyStartsWith fenceMark (pyStrip l))) []
      (lines.drop (i + 1)) j hj'
    constructor
    · show ((lines.drop (i + 1)).takeWhile
        (fun l => !(pyStartsWith fenceMark (pyStrip l)))).getD j [] =
          lines.getD (i + 1 + j) []
      rw [h2.1, drop_getD]
    · have h3 := h2.2
      rw [drop_getD] at h3
      simpa using h3
  · by_cases hlen : (fenceBody lines i).length < (lines.drop (i + 1)).length
    · right
      have h4 := takeWhile_stop (fun l => !(pyStartsWith fenceMark (pyStrip l))) []
        (lines.drop (i + 1)) hlen
      rw [drop_getD] at h4
      simpa using h4
    · left
      have hle : (fenceBody lines i).length ≤ (lines.drop (i + 1)).length :=
        takeWhile_length_le _ _
      have hdl : (lines.drop (i + 1)).length = lines.length - (i + 1) :=
        List.length_drop _ _
      omega

/-- Witness for C4 at the concrete input with fence body `["a", "b"]`:
exactly one code block whose text is `"ab"` (no inserted separator). -/
theorem code_fence_payload_witness :
    (stepAt [fenceMark, ['a'], ['b'], fenceMark] 0).1 =
      [(0, Block.code ['a', 'b'])] := by
  have h := (code_fence_payload [fenceMark, ['a'], ['b'], fenceMark] 0
    (by decide) (by decide)).1
  rw [h]
  decide

/-- Claim C5: a trimmed line beginning `"- "` or `"* "` emits exactly one
bulleted block whose text is the remainder after the two-character
prefix; a trimmed line whose first character is a digit and that contains
`". "` within its first five characters emits exactly one numbered block
whose text is everything after the first occurrence of `". "` (the split
succeeds, and the prefix cut off is the shortest one possible). -/
theorem list_item_rules (lines : List (List Char)) (i : Nat) :
    ((pyStartsWith ['-', ' '] (pyStrip (lines.getD i [])) = true ∨
      pyStartsWith ['*', ' '] (pyStrip (lines.getD i [])) = true) →
      stepAt lines i =
        ([(i, Block.bullet ((pyStrip (lines.getD i [])).drop 2))], i + 1)) ∧
    (((pyStrip (lines.getD i [])).headD 'A').isDigit = true →
      containsSub dotSpace ((pyStrip (lines.getD i [])).take 5) = true →
      (splitFirst dotSpace (pyStrip (lines.getD i []))).isSome = true ∧
      ∀ a t, splitFirst dotSpace (pyStrip (lines.getD i [])) = some (a, t) →
        stepAt lines i = ([(i, Block.numbered t)], i + 1) ∧
        pyStrip (lines.getD i []) = a ++ dotSpace ++ t ∧
        ∀ a' t', pyStrip (lines.getD i []) = a' ++ dotSpace ++ t' →
          a.length ≤ a'.length) := by
  constructor
  · intro hb
    have hcl : classifyLine (pyStrip (lines.getD i [])) =
        LineClass.bullet ((pyStrip (lines.getD i [])).drop 2) := by
      rcases hb with hb | hb
      · obtain ⟨rest, hr⟩ := (pyStartsWith_iff ['-', ' '] _).mp hb
        rw [hr]
        simp [classifyLine, pyStartsWith, fenceMark, backtick]
      · obtain ⟨rest, hr⟩ := (pyStartsWith_iff ['*', ' '] _).mp hb
        rw [hr]
        simp [classifyLine, pyStartsWith, fenceMark, backtick]
    unfold stepAt
    rw [hcl]
  · intro hd hcont
    have hsome : (splitFirst dotSpace (pyStrip (lines.getD i []))).isSome = true := by
      rw [← containsSub_isSome]
      exact containsSub_of_take dotSpace 5 _ hcont
    refine ⟨hsome, ?_⟩
    intro a t hs
    have hcl : classifyLine (pyStrip (lines.getD i [])) = LineClass.numbered t := by
      cases hL : pyStrip (lines.getD i []) with
      | nil =>
        rw [hL] at hd
        exact absurd hd (by decide)
      | cons c rest =>
        rw [hL] at hd hcont hs
        have hd' : c.isDigit = true := by simpa using hd
        unfold classifyLine
        rw [if_neg (by simp),
          if_neg (by
            rw [pyStartsWith_head_ne '#' c [' '] rest
              (ne_of_isDigit c '#' hd' (by decide))]
            decide),
          if_neg (by
            rw [pyStartsWith_head_ne '#' c ['#', ' '] rest
              (ne_of_isDigit c '#' hd' (by decide))]
            decide),
          if_neg (by
            rw [pyStartsWith_head_ne '#' c ['#', '#', ' '] rest
              (ne_of_isDigit c '#' hd' (by decide))]
            decide),
          if_neg (by
            rw [pyStartsWith_head_ne '#' c ['#', '#', '#', ' '] rest
              (ne_of_isDigit c '#' hd' (by decide))]
            decide),
          if_neg (by
            rw [show fenceMark = [backtick, backtick, backtick] from rfl,
              pyStartsWith_head_ne backtick c [backtick, backtick] rest
                (ne_of_isDigit c backtick hd' (by decide))]
            decide),
          if_neg (by
            rw [pyStartsWith_head_ne '-' c [' '] rest
              (ne_of_isDigit c '-' hd' (by decide)),
              pyStartsWith_head_ne '*' c [' '] rest
                (ne_of_isDigit c '*' hd' (by decide))]
            decide),
          if_pos (by
            simp only [List.headD_cons, hd', Bool.true_and]
            exact hcont)]
        simp [numberedText, hs]
    refine ⟨?_, splitFirst_eq_some dotSpace _ a t hs,
      fun a' t' hl' => splitFirst_min dotSpace _ a t hs a' t' hl'⟩
    unfold stepAt
    rw [hcl]

/-- Witness for C5 at the concrete inputs `"- item"` and `"10. item"`:
one bulleted block `"item"` and one numbered block `"item"` (multi-digit
index handled). -/
theorem list_item_rules_witness :
    stepAt [['-', ' ', 'i', 't', 'e', 'm']] 0 =
      ([(0, Block.bullet "item".data)], 1) ∧
    stepAt [['1', '0', '.', ' ', 'i', 't', 'e', 'm']] 0 =
      ([(0, Block.numbered "item".data)], 1) := by
  constructor
  · have h := (list_item_rules [['-', ' ', 'i', 't', 'e', 'm']] 0).1
      (Or.inl (by decide))
    rw [h]
    decide
  · have h := ((list_item_rules [['1', '0', '.', ' ', 'i', 't', 'e', 'm']] 0).2
      (by decide) (by decide)).2 "10".data "item".data (by decide)
    rw [h.1]

/-- Claim C7: if the required libraries are unavailable at startup, or the
input file does not exist, the script prints a diagnostic and exits with
status 1 (non-zero) before any conversion, and no output document is
written (the outcome is never `wrote`). -/
theorem startup_failures_exit_nonzero (importsOk inputExists : Bool)
    (content : List Char) :
    (importsOk = false →
      scriptMain importsOk inputExists content =
        Outcome.exited 1 [pkgMsg1, pkgMsg2]) ∧
    (importsOk = true → inputExists = false →
      scriptMain importsOk inputExists content = Outcome.exited 1 [notFoundMsg]) ∧
    ((importsOk = false ∨ inputExists = false) →
      ∀ path doc msgs,
        scriptMain importsOk inputExists content ≠ Outcome.wrote path doc msgs) := by
  refine ⟨?_, ?_, ?_⟩
  · intro hi
    unfold scriptMain
    rw [if_pos hi]
  · intro hi he
    unfold scriptMain
    rw [if_neg (by simp [hi]), if_pos he]
  · intro hor path doc msgs hw
    unfold scriptMain at hw
    rcases hor with hi | he
    · rw [if_pos hi] at hw
      exact Outcome.noConfusion hw
    · by_cases hi : importsOk = false
      · rw [if_pos hi] at hw
        exact Outcome.noConfusion hw
      · rw [if_neg hi, if_pos he] at hw
        exact Outcome.noConfusion hw

/-- Witness for C7 at concrete inputs: a missing input file exits with
status 1 and the not-found diagnostic; missing imports exit with status 1
and the install diagnostics. -/
theorem startup_failures_exit_nonzero_witness :
    scriptMain true false [] = Outcome.exited 1 [notFoundMsg] ∧
    scriptMain false true [] = Outcome.exited 1 [pkgMsg1, pkgMsg2] :=
  ⟨(startup_failures_exit_nonzero true false []).2.1 rfl rfl,
    (startup_failures_exit_nonzero false true []).1 rfl⟩

example : pyStrip "  hi  ".data = "hi".data := by decide

example : convert_markdown_to_word "# Hi".data = [Block.heading 1 "Hi".data] := by
  decide

example :
    convert_markdown_to_word "10. item".data = [Block.numbered "item".data] := by
  decide

end ConvertToWord
